import Mathlib

/-!
Verification of the WaveHat SIM868 driver (`wavehat/__init__.py`).

The driver speaks the textual AT protocol over a serial line.  We embed the
pure parts of the code directly (string splitting, decoding, chunking) and the
stateful parts as explicit state passing over a `SerialState` that records the
scripted frames the device will answer with and the commands written so far.
Text is modelled as `List Char`; Python builtins (`int`, `float`, `str.upper`,
`str.strip`, `str.replace`, `str.split`) are modelled on the forms that occur
in this protocol (ASCII text, plain decimal literals).
-/

namespace WaveHat

/-- Python whitespace characters stripped by `int()` / `float()` (ASCII subset). -/
def isPySpace (c : Char) : Bool :=
  c = ' ' ∨ c = '\t' ∨ c = '\n' ∨ c = '\r' ∨ c = '\x0b' ∨ c = '\x0c'

/-- ASCII decimal digit test. -/
def isDigitC (c : Char) : Bool := '0' ≤ c ∧ c ≤ '9'

/-- Value of a list of decimal digits, most significant first. -/
def digitsVal (s : List Char) : Nat :=
  s.foldl (fun a c => a * 10 + (c.toNat - '0'.toNat)) 0

/-- Python `str.strip()` with no argument: drop leading and trailing whitespace. -/
def pyStrip (s : List Char) : List Char :=
  ((s.dropWhile isPySpace).reverse.dropWhile isPySpace).reverse

/-- A nonempty run of decimal digits, else failure. -/
def pyIntDigits (ds : List Char) : Option Nat :=
  if ds ≠ [] ∧ ds.all isDigitC then some (digitsVal ds) else none

/-- Core of Python `int(str)` after whitespace stripping: an optional sign
followed by a nonempty run of decimal digits.  (The builtin also accepts digit
group underscores and non-ASCII digits; no field of this protocol uses them.) -/
def pyIntCore : List Char → Option Int
  | [] => none
  | c :: ds =>
    if c = '+' then (pyIntDigits ds).map (fun v => (v : Int))
    else if c = '-' then (pyIntDigits ds).map (fun v => -(v : Int))
    else (pyIntDigits (c :: ds)).map (fun v => (v : Int))

/-- Python `int(str)`: `none` models the `ValueError` the builtin raises. -/
def pyInt (s : List Char) : Option Int := pyIntCore (pyStrip s)

/-- Exact decimal number `mantissa / 10 ^ fracDigits`, the result of Python
`float()` on a plain decimal literal.  The binary rounding of IEEE doubles is
not modelled: the GNSS fields compared here are short decimal literals and the
claims only inspect which parse succeeded and the decimal value. -/
structure DecimalFloat where
  mantissa : Int
  fracDigits : Nat
deriving DecidableEq

/-- Rational value denoted by a `DecimalFloat`. -/
def DecimalFloat.toRat (f : DecimalFloat) : ℚ := (f.mantissa : ℚ) / 10 ^ f.fracDigits

/-- Unsigned part of Python `float(str)`: `digits`, `digits.`, `.digits` or
`digits.digits` (exponents and `inf`/`nan`, never produced by the modem, are
not modelled). -/
def pyFloatUnsigned (s : List Char) : Option DecimalFloat :=
  let intPart := s.takeWhile isDigitC
  let rest := s.dropWhile isDigitC
  match rest with
  | [] => if intPart = [] then none else some ⟨digitsVal intPart, 0⟩
  | '.' :: frac =>
    if frac.all isDigitC ∧ (intPart ≠ [] ∨ frac ≠ []) then
      some ⟨digitsVal (intPart ++ frac), frac.length⟩
    else none
  | _ => none

/-- Python `float(str)`: whitespace strip, optional sign, decimal literal. -/
def pyFloat (s : List Char) : Option DecimalFloat :=
  match pyStrip s with
  | '+' :: t => pyFloatUnsigned t
  | '-' :: t => (pyFloatUnsigned t).map (fun f => ⟨-f.mantissa, f.fracDigits⟩)
  | t => pyFloatUnsigned t

/-- Python `str.upper()` on the ASCII range. -/
def pyUpper (s : List Char) : List Char := s.map Char.toUpper

/-- Python `str.strip('"')`: drop leading and trailing double quotes. -/
def stripQuotes (s : List Char) : List Char :=
  ((s.dropWhile (fun c => c = '"')).reverse.dropWhile (fun c => c = '"')).reverse

/-- Python `str(int)` rendering, used by f-strings such as `CMGR={nth}`. -/
def showInt : Int → List Char
  | Int.ofNat n => Nat.toDigits 10 n
  | Int.negSucc n => '-' :: Nat.toDigits 10 (n + 1)

/-- Python `split(',')`: split on every comma, keeping empty segments. -/
def splitComma : List Char → List (List Char)
  | [] => [[]]
  | c :: cs =>
    if c = ',' then [] :: splitComma cs
    else (splitComma cs).modifyHead (fun t => c :: t)

/-- Python `split('\r\n')` (the `AT_END_MARK`), leftmost first. -/
def splitCRLF : List Char → List (List Char)
  | [] => [[]]
  | '\r' :: '\n' :: cs => [] :: splitCRLF cs
  | c :: cs => (splitCRLF cs).modifyHead (fun t => c :: t)

/-- Python `split('","')`, used on the `+CMGR` metadata line. -/
def splitQCQ : List Char → List (List Char)
  | [] => [[]]
  | '"' :: ',' :: '"' :: cs => [] :: splitQCQ cs
  | c :: cs => (splitQCQ cs).modifyHead (fun t => c :: t)

/-- Python `replace('+CPMS: ', '')`: erase every occurrence of the marker. -/
def replaceCPMS : List Char → List Char
  | '+' :: 'C' :: 'P' :: 'M' :: 'S' :: ':' :: ' ' :: cs => replaceCPMS cs
  | c :: cs => c :: replaceCPMS cs
  | [] => []

/-- Python `replace('+CMGR: ', '')`: erase every occurrence of the marker. -/
def replaceCMGR : List Char → List Char
  | '+' :: 'C' :: 'M' :: 'G' :: 'R' :: ':' :: ' ' :: cs => replaceCMGR cs
  | c :: cs => c :: replaceCMGR cs
  | [] => []

/-- Python `replace('+CGNSINF: ', '')`: erase every occurrence of the marker. -/
def replaceCGNSINF : List Char → List Char
  | '+' :: 'C' :: 'G' :: 'N' :: 'S' :: 'I' :: 'N' :: 'F' :: ':' :: ' ' :: cs =>
      replaceCGNSINF cs
  | c :: cs => c :: replaceCGNSINF cs
  | [] => []

/-- Inverse of comma splitting, used to state the storage-decoder theorem. -/
def joinComma : List (List Char) → List Char
  | [] => []
  | [x] => x
  | x :: xs => x ++ ',' :: joinComma xs

/-- Class constant `SIM868.SMS_MAX_LENGTH`. -/
def SMS_MAX_LENGTH : Nat := 160

/-- The chunk list built by `SIM868.send_sms` (lines 393-397): the number of
chunks is `ceil(len(message) / SMS_MAX_LENGTH)` — computed from the class
constant, not from the `sms_max_length` argument — while each slice
`message[offset * sms_max_length : (offset + 1) * sms_max_length]` uses the
argument.  `math.ceil` of the float division is modelled as exact natural
ceiling division. -/
def sms_parts (message : List Char) (sms_max_length : Nat) : List (List Char) :=
  let total_offsets := (message.length + SMS_MAX_LENGTH - 1) / SMS_MAX_LENGTH
  (List.range total_offsets).map (fun offset =>
    (message.drop (offset * sms_max_length)).take
      ((offset + 1) * sms_max_length - offset * sms_max_length))

/-- The list comprehension `[int(n) for n in message_storage.split(',')]` of
`SIM868.total_smses`: parse every segment as an integer, failing as a whole
when any segment fails. -/
def intList : List (List Char) → Option (List Int)
  | [] => some []
  | x :: xs =>
    match pyInt x, intList xs with
    | some n, some ns => some (n :: ns)
    | _, _ => none

/-- The storage-counter decode in `SIM868.total_smses` (lines 250-252) applied
to the metadata text (first token with the `+CPMS: ` marker already erased):
`[int(n) for n in message_storage.split(',')]` parses every comma-separated
field as an integer, then `total, max_capacity, *_ = ...` unpacks the first
two.  `none` models the `ValueError` raised by `int()` on a non-integer field
or by unpacking fewer than two fields. -/
def decode_cpms_fields (metadata : List Char) : Option (Int × Int) :=
  match intList (splitComma metadata) with
  | some (a :: b :: _) => some (a, b)
  | _ => none

/-- Class constant `SIM868.AT_OK` (`b'OK\r\n'`). -/
def AT_OK : List Char := "OK\r\n".toList

/-- Class constant `SIM868.AT_ERROR` (`b'ERROR\r\n'`). -/
def AT_ERROR : List Char := "ERROR\r\n".toList

/-- Class constant `SIM868.AT_PROMPT` (`b'> '`). -/
def AT_PROMPT : List Char := "> ".toList

/-- The method `SIM868._is_at_response_complete`: the accumulated response is
complete once it ends with the `OK`, `ERROR` or prompt marker. -/
def is_at_response_complete (at_response : List Char) : Bool :=
  AT_OK.isSuffixOf at_response ∨ AT_ERROR.isSuffixOf at_response ∨
    AT_PROMPT.isSuffixOf at_response

/-- The byte prefix of length `n` read from the serial line, when the device
emits the byte stream `bytes` (one byte per successful poll). -/
def accum (bytes : Nat → Char) (n : Nat) : List Char := (List.range n).map bytes

/-- The response-reader loop of `SIM868.at` (lines 155-159): starting from the
accumulator `acc` (the bytes at positions below `pos` already read), poll the
stream and append one byte per iteration until `_is_at_response_complete`
holds.  The Python loop is unbounded; `fuel` bounds how many iterations we
unroll, and `none` means the loop has not terminated within `fuel` polls.
Iterations where `in_waiting == 0` change no state and are elided. -/
def read_loop (bytes : Nat → Char) (pos : Nat) (acc : List Char) :
    Nat → Option (List Char)
  | 0 => if is_at_response_complete acc then some acc else none
  | fuel + 1 =>
    if is_at_response_complete acc then some acc
    else read_loop bytes (pos + 1) (acc ++ [bytes pos]) fuel

/-- The session flags of a `SIM868` object that the claims depend on. -/
structure Session where
  hat_powered : Bool
  at_echo : Bool

/-- State of the serial exchange: the complete frames the device is scripted to
answer with (one consumed per AT exchange, abstracting the byte-level loop
verified through `read_loop`) and the log of commands written so far. -/
structure SerialState where
  frames : List (List Char)
  writes : List (List Char)
deriving DecidableEq

/-- The distinct failure conditions of the driver.  The Python code raises the
single class `SIM868Error` with distinct messages for the first five, and the
builtin `IndexError` / `ValueError` escape for the last three; `hang` is the
modelling artifact for an exchange whose response never completes, on which
the Python reader loop blocks forever. -/
inductive SimError where
  | deviceNotPowered
  | commandFailed
  | promptNotReceived
  | outOfRange
  | emptyArgs
  | indexError
  | valueError
  | hang
deriving DecidableEq

deriving instance DecidableEq for Except

/-- The method `SIM868._format_command`: prepend `AT+` and append `\r` unless
`raw` is set. -/
def format_command (command : List Char) (raw : Bool) : List Char :=
  if raw then command else "AT+".toList ++ command ++ ['\r']

/-- The list comprehension of `SIM868.split_at_response` (lines 130-132):
split the frame on `\r\n` and drop empty segments. -/
def at_tokens (at_response : List Char) : List (List Char) :=
  (splitCRLF at_response).filter (fun t => t ≠ [])

/-- The method `SIM868.split_at_response` (lines 123-136): split the frame on
`\r\n`, drop empty segments, pop the last segment as the status, and drop one
extra leading token when AT echo is on.  `none` models the `IndexError` that
`tokens.pop` raises when no segment remains. -/
def split_at_response (at_echo : Bool) (at_response : List Char) :
    Option (List (List Char) × List Char) :=
  match (at_tokens at_response).getLast? with
  | none => none
  | some status =>
    some (((at_tokens at_response).dropLast).drop (if at_echo then 1 else 0),
      status)

/-- The method `SIM868._check_at_status_response`: raise `CommandFailed` when
the status line equals the stripped `ERROR` marker. -/
def check_at_status (status : List Char) : Except SimError Unit :=
  if status = "ERROR".toList then Except.error SimError.commandFailed
  else Except.ok ()

/-- The method `SIM868.at` (lines 138-163): raise `DeviceNotPowered` before
touching the transport when the powered flag is off; otherwise write the
formatted command and run the reader loop.  The scripted frame stands for the
bytes the loop accumulates; a missing or never-completing frame is the
`hang` outcome (the Python loop would spin forever). -/
def atCommand (s : Session) (command : List Char) (raw : Bool)
    (st : SerialState) : Except SimError (List Char) × SerialState :=
  if s.hat_powered then
    let fcmd := format_command command raw
    let st1 : SerialState := ⟨st.frames, st.writes ++ [fcmd]⟩
    match st1.frames with
    | [] => (Except.error SimError.hang, st1)
    | f :: rest =>
      if is_at_response_complete f then (Except.ok f, ⟨rest, st1.writes⟩)
      else (Except.error SimError.hang, st1)
  else (Except.error SimError.deviceNotPowered, st)

/-- The method `SIM868.turn_gnss`: issue `CGNSPWR=1` or `CGNSPWR=0`. -/
def turn_gnss (s : Session) (onFlag : Bool) (st : SerialState) :
    Except SimError (List Char) × SerialState :=
  atCommand s ("CGNSPWR=".toList ++ [if onFlag then '1' else '0']) false st

/-- Class constant `SIM868.GNSS_FIELDS`. -/
def GNSS_FIELDS : List String :=
  ["gnss_run_status", "fix_status", "utc_datetime", "latitude", "longitude",
   "msl_altitude", "speed_over_ground", "course_over_ground", "fix_mode",
   "reserved1", "hdop", "pdop", "vdop", "reserved2",
   "gnss_satellites_in_view", "gnss_satellites_used",
   "glonass_satellites_used", "reserved3", "c/n0_max", "hpa", "vpa"]

/-- A decoded GNSS field value: `int()` succeeded, or it failed and `float()`
succeeded. -/
inductive GnssValue where
  | int : Int → GnssValue
  | float : DecimalFloat → GnssValue
deriving DecidableEq

/-- One field of the `SIM868.position` loop body (lines 212-219): an empty
field maps to `None`; otherwise try `int()`, and on `ValueError` try
`float()`.  The outer `none` models the uncaught `ValueError` of `float()`. -/
def parseGnssField (s : List Char) : Option (Option GnssValue) :=
  if s = [] then some none
  else
    match pyInt s with
    | some n => some (some (GnssValue.int n))
    | none =>
      match pyFloat s with
      | some f => some (some (GnssValue.float f))
      | none => none

/-- The `zip(self.GNSS_FIELDS, gnss_values)` loop of `SIM868.position`:
pair field names with parsed values positionally, truncating at the shorter
list; a parse failure aborts the whole decode. -/
def gnss_zip : List String → List (List Char) →
    Option (List (String × Option GnssValue))
  | _, [] => some []
  | [], _ => some []
  | f :: fs, v :: vs =>
    match parseGnssField v with
    | none => none
    | some g => (gnss_zip fs vs).map (fun rest => (f, g) :: rest)

/-- The decode step of `SIM868.position` (lines 209-219) on the first token:
erase the `+CGNSINF: ` marker, split on commas, zip against `GNSS_FIELDS`. -/
def gnss_decode (token : List Char) : Option (List (String × Option GnssValue)) :=
  gnss_zip GNSS_FIELDS (splitComma (replaceCGNSINF token))

/-- The property `SIM868.position` (lines 193-221): issue `CGNSINF`, tokenize,
check the status, and decode the first token. -/
def position (s : Session) (st : SerialState) :
    Except SimError (List (String × Option GnssValue)) × SerialState :=
  match atCommand s "CGNSINF".toList false st with
  | (Except.error e, st1) => (Except.error e, st1)
  | (Except.ok resp, st1) =>
    match split_at_response s.at_echo resp with
    | none => (Except.error SimError.indexError, st1)
    | some (toks, status) =>
      match check_at_status status with
      | Except.error e => (Except.error e, st1)
      | Except.ok _ =>
        match toks with
        | [] => (Except.error SimError.indexError, st1)
        | t0 :: _ =>
          match gnss_decode t0 with
          | none => (Except.error SimError.valueError, st1)
          | some m => (Except.ok m, st1)

/-- The f-string `f'CPMS="{source.upper()}"'` of `SIM868.total_smses`. -/
def cpms_command (source : List Char) : List Char :=
  "CPMS=\"".toList ++ pyUpper source ++ ['"']

/-- The method `SIM868.total_smses` (lines 235-254): issue `CPMS="<SOURCE>"`,
tokenize, check the status, erase the `+CPMS: ` marker from the first token
and decode the first two comma-separated integers. -/
def total_smses (s : Session) (source : List Char) (st : SerialState) :
    Except SimError (Int × Int) × SerialState :=
  match atCommand s (cpms_command source) false st with
  | (Except.error e, st1) => (Except.error e, st1)
  | (Except.ok resp, st1) =>
    match split_at_response s.at_echo resp with
    | none => (Except.error SimError.indexError, st1)
    | some (toks, status) =>
      match check_at_status status with
      | Except.error e => (Except.error e, st1)
      | Except.ok _ =>
        match toks with
        | [] => (Except.error SimError.indexError, st1)
        | t0 :: _ =>
          match decode_cpms_fields (replaceCPMS t0) with
          | none => (Except.error SimError.valueError, st1)
          | some tm => (Except.ok tm, st1)

/-- The method `SIM868._valid_sms`: query `total_smses()` on the default
source `SM` and test `1 <= nth <= max_capacity`. -/
def valid_sms (s : Session) (nth : Int) (st : SerialState) :
    Except SimError Bool × SerialState :=
  match total_smses s "SM".toList st with
  | (Except.error e, st1) => (Except.error e, st1)
  | (Except.ok (_, maxCap), st1) =>
    (Except.ok (decide (1 ≤ nth ∧ nth ≤ maxCap)), st1)

/-- Class constant `SIM868.SMS_FIELDS`. -/
def SMS_FIELDS : List String := ["source", "from", "date", "sms"]

/-- A decoded SMS: the zipped `(field, value)` pairs and the caller index. -/
structure SmsRecord where
  fields : List (String × List Char)
  nth : Int
deriving DecidableEq

/-- The `zip(self.SMS_FIELDS, ...)` comprehension of `SIM868.get_sms`: pair
field names with quote-stripped values, truncating at the shorter list. -/
def zipStrip : List String → List (List Char) → List (String × List Char)
  | _, [] => []
  | [], _ => []
  | k :: ks, v :: vs => (k, stripQuotes v) :: zipStrip ks vs

/-- The record construction of `SIM868.get_sms` (lines 280-291): an empty
token list yields `None`; otherwise erase the `+CMGR: ` marker from the first
token, split on `","`, `pop(2)` the always-empty third part (`IndexError`
when fewer than three parts), append the body `at_response[1]` (`IndexError`
when the token list has no second element) and zip with `SMS_FIELDS`. -/
def decode_cmgr (toks : List (List Char)) (nth : Int) :
    Except SimError (Option SmsRecord) :=
  match toks with
  | [] => Except.ok none
  | t0 :: trest =>
    let md := splitQCQ (replaceCMGR t0)
    if md.length < 3 then Except.error SimError.indexError
    else
      match trest with
      | [] => Except.error SimError.indexError
      | body :: _ =>
        Except.ok (some ⟨zipStrip SMS_FIELDS ((md.take 2 ++ md.drop 3) ++ [body]), nth⟩)

/-- The f-string `f'CMGR={nth}'` of `SIM868.get_sms`. -/
def cmgr_command (nth : Int) : List Char := "CMGR=".toList ++ showInt nth

/-- The transport part of `SIM868.get_sms` (lines 273-291): switch text mode
(`CMGF=1`, response ignored), select the storage source (response ignored),
issue `CMGR=<nth>`, tokenize, check the status and decode the record. -/
def get_sms_core (s : Session) (nth : Int) (source : List Char)
    (st : SerialState) : Except SimError (Option SmsRecord) × SerialState :=
  match atCommand s "CMGF=1".toList false st with
  | (Except.error e, st1) => (Except.error e, st1)
  | (Except.ok _, st1) =>
    match atCommand s (cpms_command source) false st1 with
    | (Except.error e, st2) => (Except.error e, st2)
    | (Except.ok _, st2) =>
      match atCommand s (cmgr_command nth) false st2 with
      | (Except.error e, st3) => (Except.error e, st3)
      | (Except.ok resp, st3) =>
        match split_at_response s.at_echo resp with
        | none => (Except.error SimError.indexError, st3)
        | some (toks, status) =>
          match check_at_status status with
          | Except.error e => (Except.error e, st3)
          | Except.ok _ => (decode_cmgr toks nth, st3)

/-- The method `SIM868.get_sms` (lines 256-291): when `check_nth` is set,
validate `nth` via `_valid_sms` (raising `IndexOutOfRange` on failure) before
any command is issued; then run the read sequence. -/
def get_sms (s : Session) (nth : Int) (source : List Char) (check_nth : Bool)
    (st : SerialState) : Except SimError (Option SmsRecord) × SerialState :=
  if check_nth then
    match valid_sms s nth st with
    | (Except.error e, st1) => (Except.error e, st1)
    | (Except.ok b, st1) =>
      if b then get_sms_core s nth source st1
      else (Except.error SimError.outOfRange, st1)
  else get_sms_core s nth source st

/-- The `while total_smses > 0` loop of `SIM868.get_smses` (lines 304-313):
read increasing indices, decrementing the remaining budget only when a record
is present.  The Python loop is unbounded when fewer records than the budget
exist; `fuel` bounds the unrolling and exhaustion is the `hang` outcome. -/
def get_smses_loop (s : Session) (source : List Char) (budget nth : Int)
    (acc : List SmsRecord) (st : SerialState) :
    Nat → Except SimError (List SmsRecord) × SerialState
  | 0 =>
    if budget ≤ 0 then (Except.ok acc, st) else (Except.error SimError.hang, st)
  | fuel + 1 =>
    if budget ≤ 0 then (Except.ok acc, st)
    else
      match get_sms s nth source false st with
      | (Except.error e, st1) => (Except.error e, st1)
      | (Except.ok none, st1) =>
        get_smses_loop s source budget (nth + 1) acc st1 fuel
      | (Except.ok (some r), st1) =>
        get_smses_loop s source (budget - 1) (nth + 1) (acc ++ [r]) st1 fuel

/-- The method `SIM868.get_smses` (lines 293-313): the remaining-message
budget comes from `self.total_smses()` — the default source `SM`, not the
`source` argument — while each `get_sms` read uses the `source` argument. -/
def get_smses (s : Session) (source : List Char) (st : SerialState)
    (fuel : Nat) : Except SimError (List SmsRecord) × SerialState :=
  match total_smses s "SM".toList st with
  | (Except.error e, st1) => (Except.error e, st1)
  | (Except.ok (total, _), st1) => get_smses_loop s source total 1 [] st1 fuel

/-- The f-string `f'CMGD={nth}'` of `SIM868.delete_sms`. -/
def cmgd_command (nth : Int) : List Char := "CMGD=".toList ++ showInt nth

/-- The method `SIM868.delete_sms` (lines 315-337): read the record first;
when present, select the source and issue `CMGD=<nth>`. -/
def delete_sms (s : Session) (nth : Int) (source : List Char)
    (check_nth : Bool) (st : SerialState) :
    Except SimError (Option SmsRecord) × SerialState :=
  match get_sms s nth source check_nth st with
  | (Except.error e, st1) => (Except.error e, st1)
  | (Except.ok none, st1) => (Except.ok none, st1)
  | (Except.ok (some r), st1) =>
    match atCommand s (cpms_command source) false st1 with
    | (Except.error e, st2) => (Except.error e, st2)
    | (Except.ok _, st2) =>
      match atCommand s (cmgd_command nth) false st2 with
      | (Except.error e, st3) => (Except.error e, st3)
      | (Except.ok resp, st3) =>
        match split_at_response s.at_echo resp with
        | none => (Except.error SimError.indexError, st3)
        | some (_, status) =>
          match check_at_status status with
          | Except.error e => (Except.error e, st3)
          | Except.ok _ => (Except.ok (some r), st3)

/-- The f-string `f'CMGS="{mobile_number}"'` of `SIM868._send_sms`. -/
def cmgs_command (mobile_number : List Char) : List Char :=
  "CMGS=\"".toList ++ mobile_number ++ ['"']

/-- The method `SIM868._send_sms` (lines 353-376): switch text mode, issue
`CMGS="<number>"` and require the prompt marker at the end of the raw
response; then push the chunk followed by the `0x1A` terminator in raw mode,
tokenize and check the status. -/
def send_sms_part (s : Session) (sms_part mobile_number : List Char)
    (st : SerialState) :
    Except SimError (List (List Char) × List Char) × SerialState :=
  match atCommand s "CMGF=1".toList false st with
  | (Except.error e, st1) => (Except.error e, st1)
  | (Except.ok _, st1) =>
    match atCommand s (cmgs_command mobile_number) false st1 with
    | (Except.error e, st2) => (Except.error e, st2)
    | (Except.ok resp, st2) =>
      if AT_PROMPT.isSuffixOf resp then
        match atCommand s (sms_part ++ ['\x1A']) true st2 with
        | (Except.error e, st3) => (Except.error e, st3)
        | (Except.ok resp2, st3) =>
          match split_at_response s.at_echo resp2 with
          | none => (Except.error SimError.indexError, st3)
          | some (toks, status) =>
            match check_at_status status with
            | Except.error e => (Except.error e, st3)
            | Except.ok _ => (Except.ok (toks, status), st3)
      else (Except.error SimError.promptNotReceived, st2)

/-- The `for sms_part in sms_parts` loop of `SIM868.send_sms`. -/
def send_sms_loop (s : Session) (mobile_number : List Char)
    (parts : List (List Char)) (acc : List (List (List Char) × List Char))
    (st : SerialState) :
    Except SimError (List (List (List Char) × List Char)) × SerialState :=
  match parts with
  | [] => (Except.ok acc, st)
  | p :: ps =>
    match send_sms_part s p mobile_number st with
    | (Except.error e, st1) => (Except.error e, st1)
    | (Except.ok r, st1) => send_sms_loop s mobile_number ps (acc ++ [r]) st1

/-- The method `SIM868.send_sms` (lines 378-403): reject an empty message or
an empty mobile number before anything is formatted or written, then send
each chunk of `sms_parts` in order. -/
def send_sms (s : Session) (message mobile_number : List Char)
    (sms_max_length : Nat) (st : SerialState) :
    Except SimError (List (List (List Char) × List Char)) × SerialState :=
  if message = [] ∨ mobile_number = [] then
    (Except.error SimError.emptyArgs, st)
  else send_sms_loop s mobile_number (sms_parts message sms_max_length) [] st

/-- The loop of `SIM868.delete_smses` (lines 348-349). -/
def delete_smses_loop (s : Session) (source : List Char)
    (pending : List SmsRecord) (st : SerialState) :
    Except SimError Unit × SerialState :=
  match pending with
  | [] => (Except.ok (), st)
  | r :: rest =>
    match delete_sms s r.nth source false st with
    | (Except.error e, st1) => (Except.error e, st1)
    | (Except.ok _, st1) => delete_smses_loop s source rest st1

/-- The method `SIM868.delete_smses` (lines 339-351): read all records, then
delete each by its recorded index. -/
def delete_smses (s : Session) (source : List Char) (st : SerialState)
    (fuel : Nat) : Except SimError (List SmsRecord) × SerialState :=
  match get_smses s source st fuel with
  | (Except.error e, st1) => (Except.error e, st1)
  | (Except.ok smses, st1) =>
    match delete_smses_loop s source smses st1 with
    | (Except.error e, st2) => (Except.error e, st2)
    | (Except.ok _, st2) => (Except.ok smses, st2)

/-- A concrete byte stream whose first four bytes form the `OK` marker,
used to exercise the reader-loop theorem. -/
def probeBytes (n : Nat) : Char := "OK\r\n".toList.getD n 'x'

/-!  Theorems.  -/

/-- Erasing a marker never occurs in a comma-free integer segment. -/
theorem mem_dropWhile_of_mem {c : Char} {p : Char → Bool} :
    ∀ {l : List Char}, c ∈ l → p c = false → c ∈ l.dropWhile p
  | [], h, _ => absurd h (List.not_mem_nil c)
  | x :: xs, h, hc => by
    by_cases hx : p x = true
    · rw [List.dropWhile_cons_of_pos hx]
      rcases List.mem_cons.mp h with h1 | h1
      · subst h1; rw [hx] at hc; exact absurd hc (by simp)
      · exact mem_dropWhile_of_mem h1 hc
    · rw [List.dropWhile_cons_of_neg hx]
      exact h

/-- Stripping whitespace keeps every non-whitespace character. -/
theorem mem_pyStrip_of_mem {c : Char} {l : List Char} (h : c ∈ l)
    (hc : isPySpace c = false) : c ∈ pyStrip l := by
  unfold pyStrip
  rw [List.mem_reverse]
  apply mem_dropWhile_of_mem _ hc
  rw [List.mem_reverse]
  exact mem_dropWhile_of_mem h hc

/-- A run that `pyIntDigits` accepts consists of digits only. -/
theorem pyIntDigits_all {ds : List Char} {v : Nat} (h : pyIntDigits ds = some v) :
    ∀ c ∈ ds, isDigitC c = true := by
  by_cases hd : ds ≠ [] ∧ ds.all isDigitC
  · exact fun c hc => List.all_eq_true.mp hd.2 c hc
  · rw [pyIntDigits, if_neg hd] at h
    exact Option.noConfusion h

/-- A segment that `int()` accepts contains no comma. -/
theorem pyInt_no_comma {seg : List Char} {n : Int} (h : pyInt seg = some n) :
    ',' ∉ seg := by
  intro hmem
  have hmem2 : ',' ∈ pyStrip seg := mem_pyStrip_of_mem hmem (by decide)
  unfold pyInt at h
  cases hs : pyStrip seg with
  | nil => rw [hs] at hmem2; exact absurd hmem2 (List.not_mem_nil ',')
  | cons c ds =>
    rw [hs] at hmem2 h
    simp only [pyIntCore] at h
    by_cases hp : c = '+'
    · rw [if_pos hp] at h
      cases hd : pyIntDigits ds with
      | none => rw [hd] at h; simp at h
      | some v =>
        rcases List.mem_cons.mp hmem2 with h1 | h1
        · rw [hp] at h1; exact absurd h1 (by decide)
        · exact absurd (pyIntDigits_all hd ',' h1) (by decide)
    · rw [if_neg hp] at h
      by_cases hm : c = '-'
      · rw [if_pos hm] at h
        cases hd : pyIntDigits ds with
        | none => rw [hd] at h; simp at h
        | some v =>
          rcases List.mem_cons.mp hmem2 with h1 | h1
          · rw [hm] at h1; exact absurd h1 (by decide)
          · exact absurd (pyIntDigits_all hd ',' h1) (by decide)
      · rw [if_neg hm] at h
        cases hd : pyIntDigits (c :: ds) with
        | none => rw [hd] at h; simp at h
        | some v => exact absurd (pyIntDigits_all hd ',' hmem2) (by decide)

/-- Splitting a comma-free text on commas returns the text whole. -/
theorem splitComma_no_comma : ∀ {a : List Char}, ',' ∉ a → splitComma a = [a]
  | [], _ => rfl
  | c :: cs, h => by
    have hc : c ≠ ',' := fun hcc => h (hcc ▸ List.mem_cons_self c cs)
    have hcs : ',' ∉ cs := fun hm => h (List.mem_cons_of_mem c hm)
    rw [splitComma, if_neg hc, splitComma_no_comma hcs]
    rfl

/-- Splitting peels off the leading comma-free segment. -/
theorem splitComma_append {a : List Char} (rest : List Char) (h : ',' ∉ a) :
    splitComma (a ++ ',' :: rest) = a :: splitComma rest := by
  induction a with
  | nil => rw [List.nil_append, splitComma, if_pos rfl]
  | cons c cs ih =>
    have hc : c ≠ ',' := fun hcc => h (hcc ▸ List.mem_cons_self c cs)
    have hcs : ',' ∉ cs := fun hm => h (List.mem_cons_of_mem c hm)
    rw [List.cons_append, splitComma, if_neg hc, ih hcs]
    rfl

/-- Splitting on commas inverts joining comma-free segments. -/
theorem splitComma_joinComma :
    ∀ {segs : List (List Char)}, segs ≠ [] →
      (∀ seg ∈ segs, ',' ∉ seg) → splitComma (joinComma segs) = segs
  | [], h, _ => absurd rfl h
  | [a], _, hsegs => by
    rw [joinComma]
    exact splitComma_no_comma (hsegs a (List.mem_singleton.mpr rfl))
  | a :: b :: t, _, hsegs => by
    have hj : joinComma (a :: b :: t) = a ++ ',' :: joinComma (b :: t) := rfl
    have ih : splitComma (joinComma (b :: t)) = b :: t :=
      splitComma_joinComma (List.cons_ne_nil b t)
        (fun seg hseg => hsegs seg (List.mem_cons_of_mem a hseg))
    rw [hj, splitComma_append _ (hsegs a (List.mem_cons_self a _)), ih]

/-- Every segment of a successfully parsed integer list parses. -/
theorem intList_mem_some :
    ∀ {segs : List (List Char)} {l : List Int}, intList segs = some l →
      ∀ seg ∈ segs, ∃ n, pyInt seg = some n
  | [], _, _, _, hseg => absurd hseg (List.not_mem_nil _)
  | x :: xs, l, h, seg, hseg => by
    rw [intList] at h
    cases hx : pyInt x with
    | none => rw [hx] at h; exact Option.noConfusion h
    | some n =>
      cases hxs : intList xs with
      | none => rw [hx, hxs] at h; exact Option.noConfusion h
      | some ns =>
        rcases List.mem_cons.mp hseg with h1 | h1
        · exact ⟨n, h1 ▸ hx⟩
        · exact intList_mem_some hxs seg h1

/-- C1: the claim says `send_sms` splits a message of length `L` into
`ceil(L/C)` chunks of at most `C` characters whose concatenation is the
message, for every chunk size `C` passed as `sms_max_length`.  The code
computes the chunk count from the class constant `SMS_MAX_LENGTH = 160`
instead of the argument (line 393), so for the message `"ab"` and chunk size
`1` it produces `ceil(2/160) = 1` chunk `"a"` — not the `ceil(2/1) = 2`
chunks the claim requires — and the concatenation drops `"b"`. -/
theorem C1_send_sms_chunking :
    sms_parts "ab".toList 1 = [['a']] ∧
    (sms_parts "ab".toList 1).length = 1 ∧
    (sms_parts "ab".toList 1).flatten ≠ "ab".toList := by decide

/-- C2 counterexample: on the metadata `"SM",3,50` named by the claim, the
storage-counter decoder does not return `used = 3, capacity = 50`: the list
comprehension `[int(n) for n in ...]` applies `int()` to the first field
`"SM"` as well, which raises `ValueError` (modelled by `none`). -/
theorem C2_cex_storage_counter_sm :
    decode_cpms_fields (replaceCPMS "+CPMS: \"SM\",3,50".toList) = none ∧
    decode_cpms_fields (replaceCPMS "+CPMS: \"SM\",3,50".toList) ≠
      some (3, 50) := by decide

/-- C2 amended: the decoder parses every comma-separated field of the
metadata as an integer and returns the first two as `(used, capacity)`,
ignoring any further integer fields; metadata whose first field is not an
integer (such as `"SM",3,50`) raises `ValueError` instead.  So `3,50` decodes
to `(3, 50)`, as does `3,50,7,90`, and in general any join of integer
segments whose parses form `a :: b :: rest`. -/
theorem C2_storage_counter_decoder :
    decode_cpms_fields "3,50".toList = some (3, 50) ∧
    decode_cpms_fields "3,50,7,90".toList = some (3, 50) ∧
    ∀ (segs : List (List Char)) (a b : Int) (rest : List Int),
      intList segs = some (a :: b :: rest) →
      decode_cpms_fields (joinComma segs) = some (a, b) := by
  refine ⟨by decide, by decide, ?_⟩
  intro segs a b rest h
  have hne : segs ≠ [] := by
    intro he
    rw [he, intList] at h
    simp at h
  have hnc : ∀ seg ∈ segs, ',' ∉ seg := by
    intro seg hseg
    obtain ⟨m, hm⟩ := intList_mem_some h seg hseg
    exact pyInt_no_comma hm
  simp only [decode_cpms_fields, splitComma_joinComma hne hnc, h]

/-- C2 witness: the general part of the amended theorem applied to the
segments `["3", "50", "7"]`. -/
theorem C2_storage_counter_decoder_witness :
    decode_cpms_fields (joinComma ["3".toList, "50".toList, "7".toList]) =
      some (3, 50) :=
  C2_storage_counter_decoder.2.2 ["3".toList, "50".toList, "7".toList] 3 50 [7]
    (by decide)

/-- C7 counterexample: a `CMGR` token sequence made of a single metadata
token carries no message-body token, yet the decoder raises `IndexError`
(from `at_response[1]`, line 287) instead of reporting the record absent. -/
theorem C7_cex_cmgr_one_token :
    decode_cmgr ["+CMGR: \"REC READ\",\"+5491122\",\"\",\"21/01/01\"".toList] 1 =
      Except.error SimError.indexError ∧
    decode_cmgr ["+CMGR: \"REC READ\",\"+5491122\",\"\",\"21/01/01\"".toList] 1 ≠
      Except.ok none := by decide

/-- C7 amended: only a `CMGR` response whose token sequence is entirely empty
is reported as absent (`None`, line 280-282); a token sequence with exactly
one token — metadata but no message body — raises `IndexError` instead. -/
theorem C7_cmgr_absent_record :
    (∀ nth : Int, decode_cmgr [] nth = Except.ok none) ∧
    (∀ (t : List Char) (nth : Int),
      decode_cmgr [t] nth = Except.error SimError.indexError) := by
  refine ⟨fun nth => rfl, fun t nth => ?_⟩
  simp only [decode_cmgr]
  split
  · rfl
  · rfl

/-- When the powered flag is off, `at` raises before touching the transport. -/
theorem atCommand_off {s : Session} (h : s.hat_powered = false)
    (command : List Char) (raw : Bool) (st : SerialState) :
    atCommand s command raw st = (Except.error SimError.deviceNotPowered, st) := by
  simp [atCommand, h]

/-- A nonempty message yields at least one chunk. -/
theorem sms_parts_ne_nil {message : List Char} (h : message ≠ [])
    (sms_max_length : Nat) : sms_parts message sms_max_length ≠ [] := by
  have hlen : 0 < message.length := List.length_pos.mpr h
  unfold sms_parts
  intro hc
  rw [List.map_eq_nil_iff, List.range_eq_nil, SMS_MAX_LENGTH] at hc
  have h2 : message.length + 160 - 1 < 160 :=
    (Nat.div_eq_zero_iff (by norm_num)).mp hc
  omega

/-- C5: with the powered flag off, every higher-level operation — position
read, SMS read (single and bulk), SMS delete (single and bulk), SMS send and
GNSS toggle — fails with the `DeviceNotPowered` error and returns the serial
state unchanged, so nothing is written to the transport.  For `send_sms` with
an empty message or number the empty-argument error fires first, but the
state is still untouched (last conjunct). -/
theorem C5_powered_gate (s : Session) (h : s.hat_powered = false)
    (st : SerialState) (nth : Int) (source : List Char)
    (check_nth onFlag : Bool) (msg num : List Char) (len fuel : Nat) :
    position s st = (Except.error SimError.deviceNotPowered, st) ∧
    turn_gnss s onFlag st = (Except.error SimError.deviceNotPowered, st) ∧
    get_sms s nth source check_nth st =
      (Except.error SimError.deviceNotPowered, st) ∧
    get_smses s source st fuel =
      (Except.error SimError.deviceNotPowered, st) ∧
    delete_sms s nth source check_nth st =
      (Except.error SimError.deviceNotPowered, st) ∧
    delete_smses s source st fuel =
      (Except.error SimError.deviceNotPowered, st) ∧
    (msg ≠ [] → num ≠ [] →
      send_sms s msg num len st =
        (Except.error SimError.deviceNotPowered, st)) ∧
    (send_sms s msg num len st).2 = st := by
  have hget : ∀ (n2 : Int) (src : List Char) (cn : Bool) (st2 : SerialState),
      get_sms s n2 src cn st2 = (Except.error SimError.deviceNotPowered, st2) := by
    intro n2 src cn st2
    cases cn <;>
      simp [get_sms, get_sms_core, valid_sms, total_smses, atCommand_off h]
  have hsmses : ∀ (src : List Char) (st2 : SerialState) (fl : Nat),
      get_smses s src st2 fl = (Except.error SimError.deviceNotPowered, st2) := by
    intro src st2 fl
    simp [get_smses, total_smses, atCommand_off h]
  have hsend : msg ≠ [] → num ≠ [] →
      send_sms s msg num len st =
        (Except.error SimError.deviceNotPowered, st) := by
    intro hm hn
    cases hp : sms_parts msg len with
    | nil => exact absurd hp (sms_parts_ne_nil hm len)
    | cons p ps =>
      simp [send_sms, hm, hn, hp, send_sms_loop, send_sms_part,
        atCommand_off h]
  refine ⟨by simp [position, atCommand_off h],
    by simp [turn_gnss, atCommand_off h], hget nth source check_nth st,
    hsmses source st fuel, by simp [delete_sms, hget], ?_, hsend, ?_⟩
  · simp [delete_smses, hsmses]
  · by_cases he : msg = [] ∨ num = []
    · simp [send_sms, he]
    · push_neg at he
      rw [hsend he.1 he.2]

/-- C5 witness: every listed operation applied at a concrete unpowered
session leaves the concrete state untouched and fails with
`DeviceNotPowered`; the send case discharges the nonemptiness hypotheses. -/
theorem C5_powered_gate_witness :
    send_sms ⟨false, true⟩ "hi".toList "+549".toList 160 ⟨[], []⟩ =
      (Except.error SimError.deviceNotPowered, ⟨[], []⟩) :=
  (C5_powered_gate ⟨false, true⟩ rfl ⟨[], []⟩ 1 "SM".toList true true
    "hi".toList "+549".toList 160 0).2.2.2.2.2.2.1 (by decide) (by decide)

/-- The only errors `at` raises are `DeviceNotPowered` and the hang artifact;
in particular it never reports an out-of-range index. -/
theorem atCommand_fst_ne_oor (s : Session) (command : List Char) (raw : Bool)
    (st : SerialState) :
    (atCommand s command raw st).1 ≠ Except.error SimError.outOfRange := by
  rw [atCommand]
  by_cases hp : s.hat_powered
  · rw [if_pos hp]
    rcases st.frames with _ | ⟨f, rest⟩
    · simp
    · by_cases hc : is_at_response_complete f <;> simp [hc]
  · rw [if_neg hp]
    simp

/-- The status check raises only `CommandFailed`. -/
theorem check_at_status_ne_oor (status : List Char) :
    check_at_status status ≠ Except.error SimError.outOfRange := by
  rw [check_at_status]
  split <;> simp

/-- The record decode raises only `IndexError`, never an out-of-range error. -/
theorem decode_cmgr_ne_oor (toks : List (List Char)) (nth : Int) :
    decode_cmgr toks nth ≠ Except.error SimError.outOfRange := by
  unfold decode_cmgr
  split
  · simp
  · dsimp only
    split
    · simp
    · split <;> simp

/-- The read sequence of `get_sms` past the index check never reports an
out-of-range index. -/
theorem get_sms_core_fst_ne_oor (s : Session) (nth : Int)
    (source : List Char) (st : SerialState) :
    (get_sms_core s nth source st).1 ≠ Except.error SimError.outOfRange := by
  unfold get_sms_core
  split
  · next e st1 heq =>
    have h1 := atCommand_fst_ne_oor s "CMGF=1".toList false st
    rw [heq] at h1
    simpa using h1
  · next resp1 st1 heq1 =>
    split
    · next e st2 heq =>
      have h1 := atCommand_fst_ne_oor s (cpms_command source) false st1
      rw [heq] at h1
      simpa using h1
    · next resp2 st2 heq2 =>
      split
      · next e st3 heq =>
        have h1 := atCommand_fst_ne_oor s (cmgr_command nth) false st2
        rw [heq] at h1
        simpa using h1
      · next resp3 st3 heq3 =>
        split
        · simp
        · next toks0 status0 heq4 =>
          split
          · next e heq =>
            have h1 := check_at_status_ne_oor status0
            rw [heq] at h1
            simpa using h1
          · exact decode_cmgr_ne_oor _ _

/-- C6: when range-checking is enabled and the capacity reported by the
storage query is `N`, `get_sms` rejects `nth = 0` and `nth = N + 1` with the
out-of-range error (consuming only the storage exchange), accepts every
`1 ≤ nth ≤ N` (no out-of-range error can occur past the check), and with
range-checking disabled no index check is performed: no out-of-range error is
possible for any index. -/
theorem C6_sms_index_validation (s : Session) (st st2 : SerialState)
    (nth : Int) (source : List Char) (u N : Int)
    (h : total_smses s "SM".toList st = (Except.ok (u, N), st2)) :
    ((nth = 0 ∨ nth = N + 1) →
      get_sms s nth source true st = (Except.error SimError.outOfRange, st2)) ∧
    (1 ≤ nth → nth ≤ N →
      (get_sms s nth source true st).1 ≠ Except.error SimError.outOfRange) ∧
    (∀ (nth2 : Int) (st3 : SerialState),
      (get_sms s nth2 source false st3).1 ≠ Except.error SimError.outOfRange) := by
  have hv : valid_sms s nth st =
      (Except.ok (decide (1 ≤ nth ∧ nth ≤ N)), st2) := by
    unfold valid_sms
    rw [h]
  refine ⟨?_, ?_, ?_⟩
  · intro hcase
    have hfalse : decide (1 ≤ nth ∧ nth ≤ N) = false := by
      rcases hcase with h0 | h0 <;> subst h0 <;>
        simp only [decide_eq_false_iff_not] <;> omega
    simp [get_sms, hv, hfalse]
  · intro h1 h2
    have htrue : decide (1 ≤ nth ∧ nth ≤ N) = true := by
      simp only [decide_eq_true_eq]
      omega
    simp only [get_sms, if_true, hv, htrue]
    exact get_sms_core_fst_ne_oor s nth source st2
  · intro nth2 st3
    simp only [get_sms, if_false]
    exact get_sms_core_fst_ne_oor s nth2 source st3

/-- C6 witness: with a scripted storage reply reporting capacity 50, index 0
is rejected out of range after the one storage exchange. -/
theorem C6_sms_index_validation_witness :
    get_sms ⟨true, false⟩ 0 "SM".toList true
      ⟨["\r\n+CPMS: 3,50\r\n\r\nOK\r\n".toList], []⟩ =
      (Except.error SimError.outOfRange,
       ⟨[], ["AT+CPMS=\"SM\"\r".toList]⟩) :=
  (C6_sms_index_validation ⟨true, false⟩
    ⟨["\r\n+CPMS: 3,50\r\n\r\nOK\r\n".toList], []⟩
    ⟨[], ["AT+CPMS=\"SM\"\r".toList]⟩ 0 "SM".toList 3 50 (by decide)).1
    (Or.inl rfl)

/-- One more byte read extends the accumulated prefix by one. -/
theorem accum_succ (bytes : Nat → Char) (n : Nat) :
    accum bytes (n + 1) = accum bytes n ++ [bytes n] := by
  simp [accum, List.range_succ]

/-- If the prefix of length `n` is the first complete one, the reader returns
it whenever the fuel reaches position `n`. -/
theorem read_loop_reaches (bytes : Nat → Char) :
    ∀ (fuel pos n : Nat), pos ≤ n → n ≤ pos + fuel →
      is_at_response_complete (accum bytes n) = true →
      (∀ m, pos ≤ m → m < n → is_at_response_complete (accum bytes m) = false) →
      read_loop bytes pos (accum bytes pos) fuel = some (accum bytes n) := by
  intro fuel
  induction fuel with
  | zero =>
    intro pos n h1 h2 hc _
    have hnp : n = pos := by omega
    subst hnp
    show (if is_at_response_complete (accum bytes n) then some (accum bytes n)
      else none) = some (accum bytes n)
    rw [if_pos hc]
  | succ fuel ih =>
    intro pos n h1 h2 hc hm
    have hstep : read_loop bytes pos (accum bytes pos) (fuel + 1) =
        if is_at_response_complete (accum bytes pos) then
          some (accum bytes pos)
        else read_loop bytes (pos + 1) (accum bytes pos ++ [bytes pos]) fuel :=
      rfl
    by_cases hcp : is_at_response_complete (accum bytes pos) = true
    · have hnp : n = pos := by
        by_contra hne
        have hmp := hm pos le_rfl (by omega)
        rw [hcp] at hmp
        exact Bool.noConfusion hmp
      subst hnp
      rw [hstep, if_pos hcp]
    · have hne : n ≠ pos := fun he => hcp (he ▸ hc)
      rw [hstep, if_neg hcp, ← accum_succ]
      exact ih (pos + 1) n (by omega) (by omega) hc
        (fun m hm1 hm2 => hm m (by omega) hm2)

/-- Whatever the reader returns is the first complete accumulated prefix. -/
theorem read_loop_sound (bytes : Nat → Char) :
    ∀ (fuel pos : Nat) (res : List Char),
      read_loop bytes pos (accum bytes pos) fuel = some res →
      ∃ n, pos ≤ n ∧ n ≤ pos + fuel ∧ res = accum bytes n ∧
        is_at_response_complete (accum bytes n) = true ∧
        ∀ m, pos ≤ m → m < n → is_at_response_complete (accum bytes m) = false := by
  intro fuel
  induction fuel with
  | zero =>
    intro pos res h
    have hstep : read_loop bytes pos (accum bytes pos) 0 =
        if is_at_response_complete (accum bytes pos) then
          some (accum bytes pos)
        else none := rfl
    rw [hstep] at h
    by_cases hc : is_at_response_complete (accum bytes pos) = true
    · rw [if_pos hc] at h
      exact ⟨pos, le_rfl, by omega, (Option.some.inj h).symm, hc,
        fun m hm1 hm2 => by omega⟩
    · rw [if_neg hc] at h
      exact Option.noConfusion h
  | succ fuel ih =>
    intro pos res h
    have hstep : read_loop bytes pos (accum bytes pos) (fuel + 1) =
        if is_at_response_complete (accum bytes pos) then
          some (accum bytes pos)
        else read_loop bytes (pos + 1) (accum bytes pos ++ [bytes pos]) fuel :=
      rfl
    rw [hstep] at h
    by_cases hc : is_at_response_complete (accum bytes pos) = true
    · rw [if_pos hc] at h
      exact ⟨pos, le_rfl, by omega, (Option.some.inj h).symm, hc,
        fun m hm1 hm2 => by omega⟩
    · rw [if_neg hc, ← accum_succ] at h
      obtain ⟨n, hn1, hn2, hn3, hn4, hn5⟩ := ih (pos + 1) res h
      have hcf : is_at_response_complete (accum bytes pos) = false := by
        simpa using hc
      refine ⟨n, by omega, by omega, hn3, hn4, fun m hm1 hm2 => ?_⟩
      rcases eq_or_lt_of_le hm1 with he | hl
      · rw [← he]
        exact hcf
      · exact hn5 m (by omega) hm2

/-- A stream with no complete prefix keeps the reader spinning for any fuel. -/
theorem read_loop_diverges (bytes : Nat → Char)
    (hall : ∀ n, is_at_response_complete (accum bytes n) = false) :
    ∀ (fuel pos : Nat), read_loop bytes pos (accum bytes pos) fuel = none := by
  intro fuel
  induction fuel with
  | zero =>
    intro pos
    show (if is_at_response_complete (accum bytes pos) then
      some (accum bytes pos) else none) = none
    rw [if_neg (by simp [hall pos])]
  | succ fuel ih =>
    intro pos
    have hstep : read_loop bytes pos (accum bytes pos) (fuel + 1) =
        if is_at_response_complete (accum bytes pos) then
          some (accum bytes pos)
        else read_loop bytes (pos + 1) (accum bytes pos ++ [bytes pos]) fuel :=
      rfl
    rw [hstep, if_neg (by simp [hall pos]), ← accum_succ]
    exact ih (pos + 1)

/-- C8: the reader loop of `at` terminates exactly when the accumulated
bytes first end with one of the three terminal markers (`OK\r\n`,
`ERROR\r\n` or `> `), returning that frame: every returned frame is the
first complete prefix of the stream, the first complete prefix is returned
once the fuel reaches it, and a stream with no complete prefix makes the
loop spin for every fuel bound — the loop has no timeout. -/
theorem C8_reader_termination (bytes : Nat → Char) (fuel : Nat) :
    (∀ res, read_loop bytes 0 [] fuel = some res →
       ∃ n, n ≤ fuel ∧ res = accum bytes n ∧
         is_at_response_complete res = true ∧
         ∀ m, m < n → is_at_response_complete (accum bytes m) = false) ∧
    (∀ n, n ≤ fuel → is_at_response_complete (accum bytes n) = true →
       (∀ m, m < n → is_at_response_complete (accum bytes m) = false) →
       read_loop bytes 0 [] fuel = some (accum bytes n)) ∧
    ((∀ n, is_at_response_complete (accum bytes n) = false) →
       read_loop bytes 0 [] fuel = none) := by
  have h0 : accum bytes 0 = [] := rfl
  refine ⟨?_, ?_, ?_⟩
  · intro res h
    rw [← h0] at h
    obtain ⟨n, _, hn2, hn3, hn4, hn5⟩ := read_loop_sound bytes fuel 0 res h
    exact ⟨n, by omega, hn3, by rw [hn3]; exact hn4,
      fun m hm => hn5 m (by omega) hm⟩
  · intro n h1 h2 h3
    rw [← h0]
    exact read_loop_reaches bytes fuel 0 n (by omega) (by omega) h2
      (fun m _ hm2 => h3 m hm2)
  · intro hall
    rw [← h0]
    exact read_loop_diverges bytes hall fuel 0

/-- C8 witness: on a stream starting with the four `OK` marker bytes, the
reader with fuel 4 returns exactly that first complete prefix. -/
theorem C8_reader_termination_witness :
    read_loop probeBytes 0 [] 4 = some (accum probeBytes 4) :=
  (C8_reader_termination probeBytes 4).2.1 4 (by decide) (by decide)
    (by decide)

/-- A powered `at` exchange appends exactly its formatted command to the
write log, whatever the device answers. -/
theorem atCommand_writes_on {s : Session} (hp : s.hat_powered = true)
    (c : List Char) (raw : Bool) (st : SerialState) :
    (atCommand s c raw st).2.writes = st.writes ++ [format_command c raw] := by
  simp only [atCommand, hp, if_true]
  cases hf : st.frames with
  | nil => rfl
  | cons f rest => by_cases hc : is_at_response_complete f <;> simp [hc]

/-- An `at` exchange only ever appends to the write log. -/
theorem atCommand_writes_mono (s : Session) (c : List Char) (raw : Bool)
    (st : SerialState) :
    ∃ t, (atCommand s c raw st).2.writes = st.writes ++ t := by
  by_cases hp : s.hat_powered = true
  · exact ⟨[format_command c raw], atCommand_writes_on hp c raw st⟩
  · have hp2 : s.hat_powered = false := by simpa using hp
    exact ⟨[], by rw [atCommand_off hp2]; simp⟩

/-- A powered storage query appends exactly its `CPMS` command. -/
theorem total_smses_writes_on {s : Session} (hp : s.hat_powered = true)
    (source : List Char) (st : SerialState) :
    (total_smses s source st).2.writes =
      st.writes ++ [format_command (cpms_command source) false] := by
  have h1 := atCommand_writes_on hp (cpms_command source) false st
  unfold total_smses
  split
  · next e st1 heq => rw [heq] at h1; exact h1
  · next resp st1 heq =>
    rw [heq] at h1
    split
    · exact h1
    · split
      · exact h1
      · split
        · exact h1
        · split
          · exact h1
          · exact h1

/-- A storage query only appends to the write log. -/
theorem total_smses_writes_mono (s : Session) (source : List Char)
    (st : SerialState) :
    ∃ t, (total_smses s source st).2.writes = st.writes ++ t := by
  by_cases hp : s.hat_powered = true
  · exact ⟨[format_command (cpms_command source) false],
      total_smses_writes_on hp source st⟩
  · have hp2 : s.hat_powered = false := by simpa using hp
    refine ⟨[], ?_⟩
    simp [total_smses, atCommand_off hp2]

/-- The index validation only appends to the write log. -/
theorem valid_sms_writes_mono (s : Session) (nth : Int) (st : SerialState) :
    ∃ t, (valid_sms s nth st).2.writes = st.writes ++ t := by
  obtain ⟨t, ht⟩ := total_smses_writes_mono s "SM".toList st
  refine ⟨t, ?_⟩
  unfold valid_sms
  split
  · next e st1 heq => rw [heq] at ht; exact ht
  · next u cap st1 heq => rw [heq] at ht; exact ht

/-- The read sequence of `get_sms` only appends to the write log. -/
theorem get_sms_core_writes_mono (s : Session) (nth : Int)
    (source : List Char) (st : SerialState) :
    ∃ t, (get_sms_core s nth source st).2.writes = st.writes ++ t := by
  obtain ⟨t1, ht1⟩ := atCommand_writes_mono s "CMGF=1".toList false st
  unfold get_sms_core
  split
  · next e st1 heq => rw [heq] at ht1; exact ⟨t1, ht1⟩
  · next resp1 st1 heq1 =>
    rw [heq1] at ht1
    obtain ⟨t2, ht2⟩ := atCommand_writes_mono s (cpms_command source) false st1
    have hw2 : (atCommand s (cpms_command source) false st1).2.writes =
        st.writes ++ (t1 ++ t2) := by
      rw [ht2, ht1, List.append_assoc]
    split
    · next e st2 heq => rw [heq] at hw2; exact ⟨t1 ++ t2, hw2⟩
    · next resp2 st2 heq2 =>
      rw [heq2] at hw2
      obtain ⟨t3, ht3⟩ := atCommand_writes_mono s (cmgr_command nth) false st2
      have hw3 : (atCommand s (cmgr_command nth) false st2).2.writes =
          st.writes ++ (t1 ++ t2 ++ t3) := by
        rw [ht3]
        show st2.writes ++ t3 = _
        rw [hw2]
        simp [List.append_assoc]
      split
      · next e st3 heq => rw [heq] at hw3; exact ⟨t1 ++ t2 ++ t3, hw3⟩
      · next resp3 st3 heq3 =>
        rw [heq3] at hw3
        refine ⟨t1 ++ t2 ++ t3, ?_⟩
        split
        · exact hw3
        · split
          · exact hw3
          · exact hw3

/-- `get_sms` only appends to the write log. -/
theorem get_sms_writes_mono (s : Session) (nth : Int) (source : List Char)
    (check_nth : Bool) (st : SerialState) :
    ∃ t, (get_sms s nth source check_nth st).2.writes = st.writes ++ t := by
  cases check_nth with
  | false =>
    simpa only [get_sms, if_false] using get_sms_core_writes_mono s nth source st
  | true =>
    simp only [get_sms, if_true]
    obtain ⟨t1, ht1⟩ := valid_sms_writes_mono s nth st
    split
    · next e st1 heq => rw [heq] at ht1; exact ⟨t1, ht1⟩
    · next b st1 heq =>
      rw [heq] at ht1
      cases b with
      | false =>
        rw [if_neg (by simp)]
        exact ⟨t1, ht1⟩
      | true =>
        rw [if_pos rfl]
        obtain ⟨t2, ht2⟩ := get_sms_core_writes_mono s nth source st1
        refine ⟨t1 ++ t2, ?_⟩
        rw [ht2]
        show st1.writes ++ t2 = _
        rw [ht1, List.append_assoc]

/-- The bulk-read loop only appends to the write log. -/
theorem get_smses_loop_writes_mono (s : Session) (source : List Char) :
    ∀ (fuel : Nat) (budget nth : Int) (acc : List SmsRecord)
      (st : SerialState),
      ∃ t, (get_smses_loop s source budget nth acc st fuel).2.writes =
        st.writes ++ t := by
  intro fuel
  induction fuel with
  | zero =>
    intro budget nth acc st
    by_cases hb : budget ≤ 0 <;> exact ⟨[], by simp [get_smses_loop, hb]⟩
  | succ fuel ih =>
    intro budget nth acc st
    by_cases hb : budget ≤ 0
    · exact ⟨[], by simp [get_smses_loop, hb]⟩
    · have hstep : get_smses_loop s source budget nth acc st (fuel + 1) =
          match get_sms s nth source false st with
          | (Except.error e, st1) => (Except.error e, st1)
          | (Except.ok none, st1) =>
            get_smses_loop s source budget (nth + 1) acc st1 fuel
          | (Except.ok (some r), st1) =>
            get_smses_loop s source (budget - 1) (nth + 1) (acc ++ [r]) st1 fuel := by
        simp [get_smses_loop, hb]
      rw [hstep]
      obtain ⟨t1, ht1⟩ := get_sms_writes_mono s nth source false st
      split
      · next e st1 heq => rw [heq] at ht1; exact ⟨t1, ht1⟩
      · next st1 heq =>
        rw [heq] at ht1
        obtain ⟨t2, ht2⟩ := ih budget (nth + 1) acc st1
        refine ⟨t1 ++ t2, ?_⟩
        rw [ht2]
        show st1.writes ++ t2 = _
        rw [ht1, List.append_assoc]
      · next r st1 heq =>
        rw [heq] at ht1
        obtain ⟨t2, ht2⟩ := ih (budget - 1) (nth + 1) (acc ++ [r]) st1
        refine ⟨t1 ++ t2, ?_⟩
        rw [ht2]
        show st1.writes ++ t2 = _
        rw [ht1, List.append_assoc]

/-- A powered `at` exchange succeeds on a scripted complete frame. -/
theorem atCommand_ok {s : Session} (hp : s.hat_powered = true)
    (c : List Char) (raw : Bool) {st : SerialState} {f : List Char}
    {rest : List (List Char)} (hfr : st.frames = f :: rest)
    (hc : is_at_response_complete f = true) :
    atCommand s c raw st =
      (Except.ok f, ⟨rest, st.writes ++ [format_command c raw]⟩) := by
  simp [atCommand, hp, hfr, hc]

/-- With at least two scripted complete frames, the read sequence of
`get_sms` writes exactly the text-mode switch, the source select for the
given source, and the record read, in order. -/
theorem get_sms_core_writes (s : Session) (nth : Int) (source : List Char)
    (st : SerialState) (hp : s.hat_powered = true)
    (hall : ∀ f ∈ st.frames, is_at_response_complete f = true)
    (hlen : 2 ≤ st.frames.length) :
    (get_sms_core s nth source st).2.writes =
      st.writes ++ [format_command "CMGF=1".toList false,
        format_command (cpms_command source) false,
        format_command (cmgr_command nth) false] := by
  rcases hfr : st.frames with _ | ⟨f1, rest1⟩
  · rw [hfr] at hlen; simp at hlen
  rcases hr1 : rest1 with _ | ⟨f2, rest2⟩
  · rw [hfr, hr1] at hlen; simp at hlen
  rw [hr1] at hfr
  have hc1 : is_at_response_complete f1 = true :=
    hall f1 (by rw [hfr]; exact List.mem_cons_self _ _)
  have hc2 : is_at_response_complete f2 = true :=
    hall f2 (by rw [hfr]; exact List.mem_cons_of_mem _ (List.mem_cons_self _ _))
  unfold get_sms_core
  rw [atCommand_ok hp "CMGF=1".toList false hfr hc1]
  dsimp only
  rw [atCommand_ok hp (cpms_command source) false rfl hc2]
  dsimp only
  have h3 := atCommand_writes_on hp (cmgr_command nth) false
    (⟨rest2, st.writes ++ [format_command "CMGF=1".toList false] ++
      [format_command (cpms_command source) false]⟩ : SerialState)
  have hw : (atCommand s (cmgr_command nth) false
      (⟨rest2, st.writes ++ [format_command "CMGF=1".toList false] ++
        [format_command (cpms_command source) false]⟩ : SerialState)).2.writes =
      st.writes ++ [format_command "CMGF=1".toList false,
        format_command (cpms_command source) false,
        format_command (cmgr_command nth) false] := by
    rw [h3]
    simp [List.append_assoc]
  split
  · next e st3 heq => rw [heq] at hw; exact hw
  · next resp3 st3 heq3 =>
    rw [heq3] at hw
    split
    · exact hw
    · split
      · exact hw
      · exact hw

/-- C9: for every storage-source argument, `get_smses` computes its
remaining-message budget from the default source: the first command it
writes is `CPMS="SM"` whatever `source` is; each per-index `get_sms` read,
by contrast, writes the text-mode switch, then `CPMS` for the *given*
source, then the `CMGR` read. -/
theorem C9_get_smses_budget_source (s : Session) (source : List Char)
    (st : SerialState) (fuel : Nat) (hp : s.hat_powered = true) :
    (∃ t, (get_smses s source st fuel).2.writes =
       st.writes ++ format_command (cpms_command "SM".toList) false :: t) ∧
    (∀ (nth : Int) (st2 : SerialState),
       (∀ f ∈ st2.frames, is_at_response_complete f = true) →
       2 ≤ st2.frames.length →
       (get_sms s nth source false st2).2.writes =
         st2.writes ++ [format_command "CMGF=1".toList false,
           format_command (cpms_command source) false,
           format_command (cmgr_command nth) false]) := by
  constructor
  · have htw := total_smses_writes_on hp "SM".toList st
    unfold get_smses
    split
    · next e st1 heq =>
      rw [heq] at htw
      exact ⟨[], by rw [htw]⟩
    · next total cap st1 heq =>
      rw [heq] at htw
      obtain ⟨t2, ht2⟩ := get_smses_loop_writes_mono s source fuel total 1 [] st1
      refine ⟨t2, ?_⟩
      rw [ht2]
      show st1.writes ++ t2 = _
      rw [htw, List.append_assoc]
      rfl
  · intro nth st2 hall hlen
    simpa only [get_sms, if_false] using
      get_sms_core_writes s nth source st2 hp hall hlen

/-- C9 witness: a powered per-index read against two scripted frames writes
the text-mode switch, the `CPMS` select for the lower-case source argument
`sm` (upper-cased), and the record read. -/
theorem C9_get_smses_budget_source_witness :
    (get_sms ⟨true, false⟩ 1 "sm".toList false
      ⟨["\r\nOK\r\n".toList, "\r\nOK\r\n".toList], []⟩).2.writes =
      ([] : List (List Char)) ++ [format_command "CMGF=1".toList false,
        format_command (cpms_command "sm".toList) false,
        format_command (cmgr_command 1) false] :=
  (C9_get_smses_budget_source ⟨true, false⟩ "sm".toList ⟨[], []⟩ 0 rfl).2 1
    ⟨["\r\nOK\r\n".toList, "\r\nOK\r\n".toList], []⟩ (by decide) (by decide)


/-- C10: `send_sms` rejects an empty message or an empty mobile number with
an error before any command is formatted or any byte is written: the state,
including the write log, is returned unchanged. -/
theorem C10_send_sms_empty_args (s : Session)
    (message mobile_number : List Char) (sms_max_length : Nat)
    (st : SerialState) (h : message = [] ∨ mobile_number = []) :
    send_sms s message mobile_number sms_max_length st =
      (Except.error SimError.emptyArgs, st) := by
  simp only [send_sms, if_pos h]

/-- C3: tokenizing the same raw frame with echo enabled versus disabled
yields the same status, and the echo-enabled tokens are exactly the
echo-disabled tokens with the one leading (echo) token dropped: the disabled
output is that optional leading token followed by the enabled output. -/
theorem C3_tokenizer_echo (resp : List Char) (toks : List (List Char))
    (status : List Char)
    (h : split_at_response false resp = some (toks, status)) :
    split_at_response true resp = some (toks.drop 1, status) ∧
    toks = toks.take 1 ++ toks.drop 1 := by
  unfold split_at_response at h ⊢
  cases hl : (at_tokens resp).getLast? with
  | none => rw [hl] at h; exact Option.noConfusion h
  | some stat =>
    rw [hl] at h
    have h2 : ((at_tokens resp).dropLast.drop 0, stat) = (toks, status) :=
      Option.some.inj h
    have ht : (at_tokens resp).dropLast = toks := by
      have h3 := congrArg Prod.fst h2
      simpa using h3
    have hs : stat = status := congrArg Prod.snd h2
    constructor
    · show some ((at_tokens resp).dropLast.drop 1, stat) =
        some (toks.drop 1, status)
      rw [ht, hs]
    · exact (List.take_append_drop 1 toks).symm

/-- C3 witness: on the frame `CMD\r\nDATA\r\nOK\r\n`, the echo-enabled
tokenization drops exactly the leading echo token. -/
theorem C3_tokenizer_echo_witness :
    split_at_response true "CMD\r\nDATA\r\nOK\r\n".toList =
      some (["CMD".toList, "DATA".toList].drop 1, "OK".toList) ∧
    ["CMD".toList, "DATA".toList] =
      ["CMD".toList, "DATA".toList].take 1 ++
        ["CMD".toList, "DATA".toList].drop 1 :=
  C3_tokenizer_echo _ _ _ (by decide)

/-- Keys of a successful GNSS zip are an initial run of the field names. -/
theorem gnss_zip_fst :
    ∀ (fs : List String) (vs : List (List Char))
      (m : List (String × Option GnssValue)),
      gnss_zip fs vs = some m → m.map Prod.fst <+: fs := by
  intro fs
  induction fs with
  | nil =>
    intro vs m h
    cases vs with
    | nil => rw [← Option.some.inj h]; simp
    | cons v vs => rw [← Option.some.inj h]; simp
  | cons f fs ih =>
    intro vs m h
    cases vs with
    | nil =>
      rw [← Option.some.inj h]
      simp
    | cons v vs =>
      rw [gnss_zip] at h
      cases hp : parseGnssField v with
      | none => rw [hp] at h; exact Option.noConfusion h
      | some g =>
        rw [hp] at h
        cases hz : gnss_zip fs vs with
        | none => rw [hz] at h; simp at h
        | some rest =>
          rw [hz] at h
          have hm : m = (f, g) :: rest := by simpa using h.symm
          obtain ⟨t, htl⟩ := ih vs rest hz
          exact ⟨t, by rw [hm]; simpa using htl⟩

/-- C4: the GNSS decoder maps raw comma-separated fields positionally onto
the fixed field-name list `GNSS_FIELDS` (the decoded keys are always an
initial run of that list, in order, however many trailing fields the
response carries); an empty field decodes to absent, `"1"` to the integer 1
(the `int()` parse is attempted first), and `"1.5"` to the float 1.5. -/
theorem C4_gnss_decoder :
    (∀ (token : List Char) (m : List (String × Option GnssValue)),
       gnss_decode token = some m → m.map Prod.fst <+: GNSS_FIELDS) ∧
    parseGnssField [] = some none ∧
    parseGnssField "1".toList = some (some (GnssValue.int 1)) ∧
    parseGnssField "1.5".toList = some (some (GnssValue.float ⟨15, 1⟩)) ∧
    DecimalFloat.toRat ⟨15, 1⟩ = 3 / 2 ∧
    gnss_decode "+CGNSINF: 1,,2.5".toList =
      some [("gnss_run_status", some (GnssValue.int 1)),
            ("fix_status", none),
            ("utc_datetime", some (GnssValue.float ⟨25, 1⟩))] ∧
    gnss_decode "+CGNSINF: 1,1,1,1,1,1,1,1,1,1,1,1,1,1,1,1,1,1,1,1,1,1,1,1".toList =
      some (GNSS_FIELDS.map (fun f => (f, some (GnssValue.int 1)))) := by
  refine ⟨fun token m h => gnss_zip_fst _ _ _ h, by decide, by decide,
    by decide, ?_, by decide, by decide⟩
  norm_num [DecimalFloat.toRat]

/-- C4 witness: the key-prefix part applied to a three-field response. -/
theorem C4_gnss_decoder_witness :
    ([("gnss_run_status", some (GnssValue.int 1)), ("fix_status", none),
      ("utc_datetime", some (GnssValue.float ⟨25, 1⟩))].map Prod.fst) <+:
      GNSS_FIELDS :=
  C4_gnss_decoder.1 "+CGNSINF: 1,,2.5".toList _ (by decide)

/-- C10 witness: the empty message is rejected with the state untouched. -/
theorem C10_send_sms_empty_args_witness :
    send_sms ⟨true, false⟩ [] "+5491122".toList 160 ⟨[], []⟩ =
      (Except.error SimError.emptyArgs, ⟨[], []⟩) :=
  C10_send_sms_empty_args _ _ _ _ _ (Or.inl rfl)

end WaveHat
